import Mathlib

/-!
Verification development for the two-level request-dispatch core of
metron (src/metron/core/requests_launcher.py).

The file under src/ is the Launcher facade `RequestsLauncher`.  Its two
collaborators — the Dispatcher (ray's `ActorPool`, referenced through
`submit`, `has_free`, `has_next`, `get_next_unordered`, `_pending_submits`)
and the Worker (`AsyncRequestsManager`, referenced through `start_tasks`,
`launch_requests`, `complete_tasks`, `get_results`) — are not part of the
sources, so they are modelled from the specification (sections 3, 4.1,
4.2) and each such definition is marked `Modelled from the spec:`.

Request payloads and results are opaque to the core; request configs are
modelled as natural-number tags and a result records the config it came
from together with a success/failure kind.  Completion of an in-flight
request is an environment event; where a drain has to wait for futures
that have not completed yet, the environment's choice of outcome is an
explicit parameter `out : RequestConfig -> Bool`.
-/

/-- Opaque request payload (spec section 3): modelled as a natural-number tag. -/
abbrev RequestConfig := Nat

/-- Opaque outcome of one request (spec section 6): success-or-failure kind
plus the config it answers. -/
structure Result where
  cfg : RequestConfig
  ok : Bool
deriving DecidableEq

/-- Modelled from the spec: the Worker (class `AsyncRequestsManager`, not under
src/; spec sections 3 and 4.1): one API client handle, a configured concurrency
ceiling, a buffer of completed results in arrival order, and a running flag for
its task loop.  The Worker-internal cooperative loop itself is not needed by
the pool-level claims and is not modelled. -/
structure Worker where
  id : Nat
  client : Nat
  concurrencyLimit : Nat
  resultBuffer : List Result
  running : Bool
deriving DecidableEq

/-- Modelled from the spec: a Future/handle (spec section 3): one
dispatched-but-not-yet-retrieved submission, tracked against the Worker it was
routed to; `done` records whether it has resolved, and `ok` the recorded
outcome once it has. -/
structure Future where
  workerIdx : Nat
  cfg : RequestConfig
  done : Bool
  ok : Bool
deriving DecidableEq

/-- Modelled from the spec: the Dispatcher state (ray's `ActorPool`, not under
src/; spec sections 3 and 4.2): the fixed ordered Worker set, the FIFO queue of
pending (not yet dispatched) submissions (`_pending_submits` in the source),
and the set of outstanding futures, at most one per Worker. -/
structure ActorPool where
  workers : List Worker
  pendingSubmits : List RequestConfig
  outstanding : List Future
deriving DecidableEq

/-- Append a result to the buffer of the worker at position `i`
(no-op when `i` is out of range). -/
def bufferAt : List Worker → Nat → Result → List Worker
  | [], _, _ => []
  | w :: ws, 0, res => { w with resultBuffer := w.resultBuffer ++ [res] } :: ws
  | w :: ws, i + 1, res => w :: bufferAt ws i res

/-- Modelled from the spec: a Worker is idle when it has no outstanding
dispatch tracked by the Dispatcher (spec section 4.2, `submit`). -/
def ActorPool.isIdle (p : ActorPool) (i : Nat) : Bool :=
  p.outstanding.all (fun f => f.workerIdx != i)

/-- First idle worker index, if any (canonical choice for the spec's
"pick any idle Worker"). -/
def ActorPool.firstIdle (p : ActorPool) : Option Nat :=
  (List.range p.workers.length).find? p.isIdle

/-- Modelled from the spec: `ActorPool.has_free` (spec section 4.2,
`hasFree`): true iff at least one Worker has no outstanding dispatch
tracked by the Dispatcher. -/
def ActorPool.has_free (p : ActorPool) : Bool :=
  (List.range p.workers.length).any p.isIdle

/-- Modelled from the spec: `ActorPool.has_next`: the pool still holds an
unreaped outstanding future (`_future_to_actor` nonempty). -/
def ActorPool.has_next (p : ActorPool) : Bool :=
  !p.outstanding.isEmpty

/-- Record a new outstanding dispatch of `c` to worker `i`. -/
def ActorPool.dispatchTo (p : ActorPool) (i : Nat) (c : RequestConfig) : ActorPool :=
  { p with outstanding := p.outstanding ++ [{ workerIdx := i, cfg := c, done := false, ok := false }] }

/-- Modelled from the spec: `ActorPool.submit` (spec section 4.2): assign the
config to an idle Worker if one exists, otherwise queue it as a pending
submission until a Worker becomes idle. -/
def ActorPool.submit (p : ActorPool) (c : RequestConfig) : ActorPool :=
  match p.firstIdle with
  | some i => p.dispatchTo i c
  | none => { p with pendingSubmits := p.pendingSubmits ++ [c] }

/-- Modelled from the spec: environment event — the outstanding future at
position `j` completes with outcome `ok`; its result is buffered at its
Worker in arrival order (spec sections 3 and 4.1). -/
def ActorPool.completeAt (p : ActorPool) (j : Nat) (ok : Bool) : ActorPool :=
  match p.outstanding.get? j with
  | none => p
  | some f =>
    if f.done then p
    else
      { p with
        outstanding := p.outstanding.set j { f with done := true, ok := ok },
        workers := bufferAt p.workers f.workerIdx { cfg := f.cfg, ok := ok } }

/-- Modelled from the spec: the non-blocking reap (spec section 4.2, `drain`
with `block = false`): reap every already-completed outstanding future,
marking its Worker idle again, without waiting for any future still in
progress. -/
def ActorPool.reapReady (p : ActorPool) : ActorPool :=
  { p with outstanding := p.outstanding.filter (fun f => !f.done) }

/-- Modelled from the spec: wait for the next outstanding future to complete
and reap it (the head of the outstanding list is resolved: if it had not
completed yet, the environment resolves it with outcome `out` and its result
is buffered at its Worker; a future that already completed buffered its
result at completion time). -/
def ActorPool.resolveFirst (p : ActorPool) (out : RequestConfig → Bool) : ActorPool :=
  match p.outstanding with
  | [] => p
  | f :: rest =>
    { p with
      outstanding := rest,
      workers := if f.done then p.workers
                 else bufferAt p.workers f.workerIdx { cfg := f.cfg, ok := out f.cfg } }

/-- Modelled from the spec: hand one queued submission off to a Worker
(spec section 4.2, the wait until `pendingSubmissions == 0`): if an idle
Worker exists the submission is dispatched at once; otherwise the wait
continues until a Worker becomes idle, i.e. the next outstanding future is
resolved and reaped, freeing its Worker for the submission.  When even that
yields no idle Worker (an empty or ill-formed pool) the submission stays
queued. -/
def ActorPool.handOff (p : ActorPool) (out : RequestConfig → Bool) (c : RequestConfig) : ActorPool :=
  match p.firstIdle with
  | some i => p.dispatchTo i c
  | none =>
    let q := p.resolveFirst out
    match q.firstIdle with
    | some i => q.dispatchTo i c
    | none => { q with pendingSubmits := q.pendingSubmits ++ [c] }

/-- Hand off each queued submission in FIFO order. -/
def waitPendingAux (out : RequestConfig → Bool) : List RequestConfig → ActorPool → ActorPool
  | [], p => p
  | c :: cs, p => waitPendingAux out cs (p.handOff out c)

/-- Modelled from the spec: the first phase of the blocking drain — wait,
polling, until every queued submission has been handed off to some Worker
(spec section 4.2, `drain` with `block = true`). -/
def ActorPool.waitPendingZero (p : ActorPool) (out : RequestConfig → Bool) : ActorPool :=
  waitPendingAux out p.pendingSubmits { p with pendingSubmits := [] }

/-- Modelled from the spec: the blocking reap — repeatedly wait for the next
outstanding future to complete and reap it, until no outstanding futures
remain; every future still in progress resolves with outcome `out` and its
result is buffered at its Worker. -/
def ActorPool.blockingReapAll (p : ActorPool) (out : RequestConfig → Bool) : ActorPool :=
  { p with
    outstanding := [],
    workers := p.outstanding.foldl
      (fun ws f => if f.done then ws else bufferAt ws f.workerIdx { cfg := f.cfg, ok := out f.cfg })
      p.workers }

/-- Modelled from the spec: `Worker.start_tasks` (spec section 4.1, `start`):
begin the internal task loop. -/
def Worker.start_tasks (w : Worker) : Worker :=
  { w with running := true }

/-- Modelled from the spec: `Worker.complete_tasks` (spec section 4.1,
`completeTasks`): wait until every request at this Worker has finished, then
stop the task loop.  At the point the Launcher calls it the blocking drain has
already resolved every future, so the state change is stopping the loop. -/
def Worker.complete_tasks (w : Worker) : Worker :=
  { w with running := false }

/-- Modelled from the spec: `Worker.get_results` (spec section 4.1,
`getResults`): return the buffered results accumulated so far, in arrival
order, and clear the buffer. -/
def Worker.get_results (w : Worker) : List Result × Worker :=
  (w.resultBuffer, { w with resultBuffer := [] })

/-- Modelled from the spec: `construct_clients` (metron.core.llm_clients, not
under src/): constructs the requested number of API client handles. -/
def construct_clients (num_clients : Nat) : List Nat :=
  List.range num_clients

/-- The Launcher (source: class `RequestsLauncher`).  In the source the actor
list and the `ActorPool` alias the same actor handles, so the single Worker
list inside the pool is the shared state and `actors` is read from it. -/
structure RequestsLauncher where
  llm_client_pool : ActorPool
deriving DecidableEq

/-- The actor list (source: `self.actors`, the same actors the pool holds). -/
def RequestsLauncher.actors (r : RequestsLauncher) : List Worker :=
  r.llm_client_pool.workers

/-- Source `RequestsLauncher.__init__` (lines 13-26): construct
`num_ray_clients` API clients, wrap each in an `AsyncRequestsManager` with the
given `max_concurrent_requests`, and build the `ActorPool` over those actors. -/
def RequestsLauncher.init (num_ray_clients : Nat)
    (num_concurrent_requests_per_client : Nat) : RequestsLauncher :=
  let llm_clients := construct_clients num_ray_clients
  let actors := llm_clients.map (fun client_id =>
    { id := client_id, client := client_id,
      concurrencyLimit := num_concurrent_requests_per_client,
      resultBuffer := [], running := false : Worker })
  { llm_client_pool := { workers := actors, pendingSubmits := [], outstanding := [] } }

/-- Source `RequestsLauncher.start` (lines 28-36): start the task loop on each
actor. -/
def RequestsLauncher.start (r : RequestsLauncher) : RequestsLauncher :=
  { llm_client_pool :=
    { r.llm_client_pool with workers := r.llm_client_pool.workers.map Worker.start_tasks } }

/-- Source `RequestsLauncher.launch_requests` (lines 38-50): forward the
request config to the pool's `submit`. -/
def RequestsLauncher.launch_requests (r : RequestsLauncher) (request_config : RequestConfig) :
    RequestsLauncher :=
  { llm_client_pool := r.llm_client_pool.submit request_config }

/-- Source `RequestsLauncher.is_free` (lines 52-59): forward to the pool's
`has_free`. -/
def RequestsLauncher.is_free (r : RequestsLauncher) : Bool :=
  r.llm_client_pool.has_free

/-- Source `RequestsLauncher.free_pool` (lines 61-79).  With `block = false`
the reap loop is the non-blocking reap of the already-completed outstanding
futures; with `block = true` the pool first waits until `_pending_submits` is
empty and then reaps every outstanding future, waiting for each (the reap
semantics are modelled from the spec, section 4.2, since `ActorPool` is not
under src/; `out` is the environment's outcome for futures that had not
completed when the blocking drain waits for them). -/
def RequestsLauncher.free_pool (r : RequestsLauncher) (block : Bool)
    (out : RequestConfig → Bool) : RequestsLauncher :=
  if !block then
    { llm_client_pool := r.llm_client_pool.reapReady }
  else
    { llm_client_pool := (r.llm_client_pool.waitPendingZero out).blockingReapAll out }

/-- Source `RequestsLauncher.complete_tasks` (lines 81-85): blocking
`free_pool`, then `complete_tasks` on every actor in sequence. -/
def RequestsLauncher.complete_tasks (r : RequestsLauncher) (out : RequestConfig → Bool) :
    RequestsLauncher :=
  let r1 := r.free_pool true out
  { llm_client_pool :=
    { r1.llm_client_pool with workers := r1.llm_client_pool.workers.map Worker.complete_tasks } }

/-- Source `RequestsLauncher.get_results` (lines 87-97): iterate the actors in
order, extending the result list with each actor's drained results. -/
def RequestsLauncher.get_results (r : RequestsLauncher) : List Result × RequestsLauncher :=
  let step := fun (acc : List Result × List Worker) (w : Worker) =>
    (acc.1 ++ (Worker.get_results w).1, acc.2 ++ [(Worker.get_results w).2])
  let res := r.llm_client_pool.workers.foldl step ([], [])
  (res.1, { llm_client_pool := { r.llm_client_pool with workers := res.2 } })

/-- Well-formedness of a pool state, maintained by every pool operation from
the initial state: each outstanding future targets an existing Worker, and no
Worker carries two outstanding dispatches. -/
def ActorPool.WF (p : ActorPool) : Prop :=
  (∀ f ∈ p.outstanding, f.workerIdx < p.workers.length) ∧
    (p.outstanding.map Future.workerIdx).Nodup

instance (p : ActorPool) : Decidable p.WF := by
  unfold ActorPool.WF; infer_instance

/-- Total number of buffered results across a Worker list. -/
def sumLens (ws : List Worker) : Nat :=
  (ws.map (fun w => w.resultBuffer.length)).sum

/-- Total number of buffered results across the pool's Workers. -/
def ActorPool.sumBuffers (p : ActorPool) : Nat :=
  sumLens p.workers

/-- Number of outstanding futures that have not completed yet. -/
def ActorPool.undoneCount (p : ActorPool) : Nat :=
  (p.outstanding.filter (fun f => !f.done)).length

/-- Concatenation of the per-Worker result buffers in Worker order, each
buffer kept in its arrival order: the spec's description of `getResults`
(section 4.3), stated independently of the source's accumulator loop. -/
def concatBuffers : List Worker → List Result
  | [] => []
  | w :: ws => w.resultBuffer ++ concatBuffers ws

/-- The construction-time identity of a Worker: its id, its client handle and
its configured concurrency ceiling.  Pool operations change a Worker's buffer
or running flag but never its identity. -/
def Worker.key (w : Worker) : Nat × Nat × Nat :=
  (w.id, w.client, w.concurrencyLimit)

/-- The identities of the Launcher's actors, in list order. -/
def actorKeys (r : RequestsLauncher) : List (Nat × Nat × Nat) :=
  r.actors.map Worker.key

theorem bufferAt_map_key (ws : List Worker) (i : Nat) (res : Result) :
    (bufferAt ws i res).map Worker.key = ws.map Worker.key := by
  induction ws generalizing i with
  | nil => rfl
  | cons w ws ih =>
    cases i with
    | zero => simp [bufferAt, Worker.key]
    | succ j => simp [bufferAt, ih]

theorem bufferAt_length (ws : List Worker) (i : Nat) (res : Result) :
    (bufferAt ws i res).length = ws.length := by
  have h := congrArg List.length (bufferAt_map_key ws i res)
  simpa using h

theorem bufferAt_sumLens (ws : List Worker) (i : Nat) (res : Result) (h : i < ws.length) :
    sumLens (bufferAt ws i res) = sumLens ws + 1 := by
  induction ws generalizing i with
  | nil => simp at h
  | cons w ws ih =>
    cases i with
    | zero => simp [bufferAt, sumLens]; omega
    | succ j =>
      have hj : j < ws.length := by simpa using h
      have := ih j hj
      simp [bufferAt, sumLens] at this ⊢
      omega

theorem has_free_iff_firstIdle (p : ActorPool) :
    p.has_free = true ↔ p.firstIdle.isSome := by
  unfold ActorPool.has_free ActorPool.firstIdle
  simp [List.any_eq_true, List.find?_isSome]

theorem firstIdle_lt (p : ActorPool) (i : Nat) (h : p.firstIdle = some i) :
    i < p.workers.length := by
  unfold ActorPool.firstIdle at h
  have := List.mem_of_find?_eq_some h
  simpa using this

theorem firstIdle_isIdle (p : ActorPool) (i : Nat) (h : p.firstIdle = some i) :
    p.isIdle i = true :=
  List.find?_some h

theorem firstIdle_none_busy (p : ActorPool) (h : p.firstIdle = none) (i : Nat)
    (hi : i < p.workers.length) : p.isIdle i = false := by
  unfold ActorPool.firstIdle at h
  rw [List.find?_eq_none] at h
  have := h i (by simpa using hi)
  simpa using this

theorem isIdle_iff (p : ActorPool) (i : Nat) :
    p.isIdle i = true ↔ ∀ f ∈ p.outstanding, f.workerIdx ≠ i := by
  unfold ActorPool.isIdle
  simp [List.all_eq_true]

theorem isIdle_false_mem (p : ActorPool) (i : Nat) (h : p.isIdle i = false) :
    ∃ f ∈ p.outstanding, f.workerIdx = i := by
  unfold ActorPool.isIdle at h
  rcases List.all_eq_false.mp h with ⟨f, hf, hne⟩
  exact ⟨f, hf, by simpa using hne⟩

theorem dispatchTo_pendingSubmits (p : ActorPool) (i : Nat) (c : RequestConfig) :
    (p.dispatchTo i c).pendingSubmits = p.pendingSubmits := rfl

theorem dispatchTo_workers (p : ActorPool) (i : Nat) (c : RequestConfig) :
    (p.dispatchTo i c).workers = p.workers := rfl

theorem dispatchTo_WF (p : ActorPool) (i : Nat) (c : RequestConfig) (hwf : p.WF)
    (hi : i < p.workers.length) (hidle : p.isIdle i = true) : (p.dispatchTo i c).WF := by
  obtain ⟨h1, h2⟩ := hwf
  constructor
  · intro f hf
    rw [ActorPool.dispatchTo] at hf ⊢
    simp only [List.mem_append, List.mem_singleton] at hf
    rcases hf with hf | hf
    · exact h1 f hf
    · subst hf; simpa using hi
  · rw [ActorPool.dispatchTo]
    simp only [List.map_append, List.map_cons, List.map_nil]
    rw [List.nodup_append]
    refine ⟨h2, List.nodup_singleton _, ?_⟩
    intro a ha hb
    simp only [List.mem_singleton] at hb
    subst hb
    rcases List.mem_map.mp ha with ⟨f, hf, hfa⟩
    exact ((isIdle_iff p _).mp hidle f hf) hfa

theorem dispatchTo_measure (p : ActorPool) (i : Nat) (c : RequestConfig) :
    (p.dispatchTo i c).sumBuffers + (p.dispatchTo i c).undoneCount
      = p.sumBuffers + p.undoneCount + 1 := by
  unfold ActorPool.dispatchTo ActorPool.sumBuffers ActorPool.undoneCount
  simp [List.filter_append]
  omega

theorem resolveFirst_map_key (p : ActorPool) (out : RequestConfig → Bool) :
    (p.resolveFirst out).workers.map Worker.key = p.workers.map Worker.key := by
  unfold ActorPool.resolveFirst
  split
  · rfl
  · rename_i f rest _
    by_cases hd : f.done
    · simp [hd]
    · simp [hd, bufferAt_map_key]

theorem resolveFirst_length (p : ActorPool) (out : RequestConfig → Bool) :
    (p.resolveFirst out).workers.length = p.workers.length := by
  have h := congrArg List.length (resolveFirst_map_key p out)
  simpa using h

theorem resolveFirst_pendingSubmits (p : ActorPool) (out : RequestConfig → Bool) :
    (p.resolveFirst out).pendingSubmits = p.pendingSubmits := by
  unfold ActorPool.resolveFirst
  split <;> rfl

theorem resolveFirst_WF (p : ActorPool) (out : RequestConfig → Bool) (hwf : p.WF) :
    (p.resolveFirst out).WF := by
  obtain ⟨h1, h2⟩ := hwf
  unfold ActorPool.resolveFirst
  split
  · exact ⟨h1, h2⟩
  · rename_i f rest heq
    constructor
    · intro g hg
      have hlen : (if f.done then p.workers
          else bufferAt p.workers f.workerIdx { cfg := f.cfg, ok := out f.cfg }).length
          = p.workers.length := by
        by_cases hd : f.done <;> simp [hd, bufferAt_length]
      simp only [hlen]
      exact h1 g (by rw [heq]; exact List.mem_cons_of_mem f hg)
    · rw [heq] at h2
      simp only [List.map_cons] at h2
      exact h2.of_cons

theorem resolveFirst_measure (p : ActorPool) (out : RequestConfig → Bool) (hwf : p.WF) :
    (p.resolveFirst out).sumBuffers + (p.resolveFirst out).undoneCount
      = p.sumBuffers + p.undoneCount := by
  obtain ⟨h1, _⟩ := hwf
  unfold ActorPool.resolveFirst ActorPool.sumBuffers ActorPool.undoneCount
  split
  · rfl
  · rename_i f rest heq
    by_cases hd : f.done
    · simp only [hd, if_true]
      rw [heq]
      simp [List.filter_cons, hd]
    · have hflt : f.workerIdx < p.workers.length := h1 f (by rw [heq]; exact List.mem_cons_self f rest)
      have hdf : f.done = false := by
        cases hfd : f.done
        · rfl
        · exact absurd hfd hd
      rw [heq]
      simp only [List.filter_cons, hdf, Bool.not_false, if_true, Bool.false_eq_true, if_false,
        List.length_cons]
      rw [bufferAt_sumLens p.workers f.workerIdx _ hflt]
      omega

theorem resolveFirst_firstIdle_isSome (p : ActorPool) (out : RequestConfig → Bool)
    (hwf : p.WF) (hlen : 0 < p.workers.length) (hnone : p.firstIdle = none) :
    (p.resolveFirst out).firstIdle.isSome := by
  have hbusy0 : p.isIdle 0 = false := firstIdle_none_busy p hnone 0 hlen
  obtain ⟨f0, hf0, _⟩ := isIdle_false_mem p 0 hbusy0
  rcases heq : p.outstanding with _ | ⟨f, rest⟩
  · rw [heq] at hf0; simp at hf0
  · have hflt : f.workerIdx < p.workers.length := hwf.1 f (by rw [heq]; exact List.mem_cons_self f rest)
    have hnd := hwf.2
    rw [heq] at hnd
    simp only [List.map_cons, List.nodup_cons] at hnd
    have hq : (p.resolveFirst out).outstanding = rest := by
      unfold ActorPool.resolveFirst
      rw [heq]
    have hidle : (p.resolveFirst out).isIdle f.workerIdx = true := by
      rw [isIdle_iff, hq]
      intro g hg hgf
      exact hnd.1 (hgf ▸ List.mem_map_of_mem Future.workerIdx hg)
    have hlt : f.workerIdx < (p.resolveFirst out).workers.length := by
      rw [resolveFirst_length]; exact hflt
    unfold ActorPool.firstIdle
    rw [List.find?_isSome]
    exact ⟨f.workerIdx, by simpa using hlt, hidle⟩

theorem handOff_map_key (p : ActorPool) (out : RequestConfig → Bool) (c : RequestConfig) :
    (p.handOff out c).workers.map Worker.key = p.workers.map Worker.key := by
  unfold ActorPool.handOff
  cases h : p.firstIdle with
  | some i => rfl
  | none =>
    cases h2 : (p.resolveFirst out).firstIdle with
    | some i =>
      simp only [h2]
      rw [dispatchTo_workers]
      exact resolveFirst_map_key p out
    | none =>
      simp only [h2]
      exact resolveFirst_map_key p out

theorem handOff_length (p : ActorPool) (out : RequestConfig → Bool) (c : RequestConfig) :
    (p.handOff out c).workers.length = p.workers.length := by
  have h := congrArg List.length (handOff_map_key p out c)
  simpa using h

theorem handOff_spec (p : ActorPool) (out : RequestConfig → Bool) (c : RequestConfig)
    (hwf : p.WF) (hlen : 0 < p.workers.length) :
    (p.handOff out c).pendingSubmits = p.pendingSubmits ∧
    (p.handOff out c).WF ∧
    (p.handOff out c).sumBuffers + (p.handOff out c).undoneCount
      = p.sumBuffers + p.undoneCount + 1 := by
  unfold ActorPool.handOff
  cases h : p.firstIdle with
  | some i =>
    refine ⟨rfl, ?_, dispatchTo_measure p i c⟩
    exact dispatchTo_WF p i c hwf (firstIdle_lt p i h) (firstIdle_isIdle p i h)
  | none =>
    have hsome := resolveFirst_firstIdle_isSome p out hwf hlen h
    cases h2 : (p.resolveFirst out).firstIdle with
    | none => rw [h2] at hsome; simp at hsome
    | some i =>
      simp only [h2]
      have hwfq := resolveFirst_WF p out hwf
      refine ⟨?_, ?_, ?_⟩
      · rw [dispatchTo_pendingSubmits]
        exact resolveFirst_pendingSubmits p out
      · exact dispatchTo_WF _ i c hwfq (firstIdle_lt _ i h2) (firstIdle_isIdle _ i h2)
      · rw [dispatchTo_measure]
        rw [resolveFirst_measure p out hwf]

theorem waitPendingAux_map_key (out : RequestConfig → Bool) (cs : List RequestConfig) :
    ∀ p : ActorPool, (waitPendingAux out cs p).workers.map Worker.key = p.workers.map Worker.key := by
  induction cs with
  | nil => intro p; rfl
  | cons c cs ih =>
    intro p
    have hstep : waitPendingAux out (c :: cs) p = waitPendingAux out cs (p.handOff out c) := rfl
    rw [hstep, ih, handOff_map_key]

theorem waitPendingAux_spec (out : RequestConfig → Bool) (cs : List RequestConfig) :
    ∀ p : ActorPool, p.WF → 0 < p.workers.length →
      (waitPendingAux out cs p).pendingSubmits = p.pendingSubmits ∧
      (waitPendingAux out cs p).WF ∧
      (waitPendingAux out cs p).sumBuffers + (waitPendingAux out cs p).undoneCount
        = p.sumBuffers + p.undoneCount + cs.length := by
  induction cs with
  | nil => intro p _ _; exact ⟨rfl, by assumption, by simp [waitPendingAux]⟩
  | cons c cs ih =>
    intro p hwf hlen
    obtain ⟨hpend, hwf2, hmeas⟩ := handOff_spec p out c hwf hlen
    have hlen2 : 0 < (p.handOff out c).workers.length := by
      rw [handOff_length]; exact hlen
    obtain ⟨ih1, ih2, ih3⟩ := ih (p.handOff out c) hwf2 hlen2
    have hstep : waitPendingAux out (c :: cs) p = waitPendingAux out cs (p.handOff out c) := rfl
    refine ⟨?_, ?_, ?_⟩
    · rw [hstep, ih1, hpend]
    · rw [hstep]; exact ih2
    · rw [hstep, ih3, hmeas]
      simp only [List.length_cons]
      omega

theorem foldResolve_map_key (out : RequestConfig → Bool) (fs : List Future) :
    ∀ ws : List Worker,
      (fs.foldl (fun ws f => if f.done then ws
          else bufferAt ws f.workerIdx { cfg := f.cfg, ok := out f.cfg }) ws).map Worker.key
        = ws.map Worker.key := by
  induction fs with
  | nil => intro ws; rfl
  | cons f fs ih =>
    intro ws
    rw [List.foldl_cons, ih]
    by_cases hd : f.done
    · simp [hd]
    · simp [hd, bufferAt_map_key]

theorem foldResolve_sumLens (out : RequestConfig → Bool) (fs : List Future) :
    ∀ ws : List Worker, (∀ f ∈ fs, f.workerIdx < ws.length) →
      sumLens (fs.foldl (fun ws f => if f.done then ws
          else bufferAt ws f.workerIdx { cfg := f.cfg, ok := out f.cfg }) ws)
        = sumLens ws + (fs.filter (fun f => !f.done)).length := by
  induction fs with
  | nil => intro ws _; simp
  | cons f fs ih =>
    intro ws hbound
    rw [List.foldl_cons]
    by_cases hd : f.done
    · have hdf : f.done = true := hd
      simp only [hdf, if_true]
      rw [ih ws (fun g hg => hbound g (List.mem_cons_of_mem f hg))]
      simp [List.filter_cons, hdf]
    · have hdf : f.done = false := by
        cases hfd : f.done
        · rfl
        · exact absurd hfd hd
      simp only [hdf, Bool.false_eq_true, if_false]
      have hb2 : ∀ g ∈ fs, g.workerIdx < (bufferAt ws f.workerIdx { cfg := f.cfg, ok := out f.cfg }).length := by
        intro g hg
        rw [bufferAt_length]
        exact hbound g (List.mem_cons_of_mem f hg)
      rw [ih _ hb2]
      rw [bufferAt_sumLens ws f.workerIdx _ (hbound f (List.mem_cons_self f fs))]
      simp [List.filter_cons, hdf]
      omega

theorem blockingReapAll_outstanding (p : ActorPool) (out : RequestConfig → Bool) :
    (p.blockingReapAll out).outstanding = [] := rfl

theorem blockingReapAll_pendingSubmits (p : ActorPool) (out : RequestConfig → Bool) :
    (p.blockingReapAll out).pendingSubmits = p.pendingSubmits := rfl

theorem blockingReapAll_map_key (p : ActorPool) (out : RequestConfig → Bool) :
    (p.blockingReapAll out).workers.map Worker.key = p.workers.map Worker.key := by
  unfold ActorPool.blockingReapAll
  exact foldResolve_map_key out p.outstanding p.workers

theorem blockingReapAll_sumBuffers (p : ActorPool) (out : RequestConfig → Bool)
    (hwf : p.WF) : (p.blockingReapAll out).sumBuffers = p.sumBuffers + p.undoneCount := by
  unfold ActorPool.blockingReapAll ActorPool.sumBuffers ActorPool.undoneCount
  exact foldResolve_sumLens out p.outstanding p.workers hwf.1

theorem waitPendingZero_map_key (p : ActorPool) (out : RequestConfig → Bool) :
    (p.waitPendingZero out).workers.map Worker.key = p.workers.map Worker.key := by
  unfold ActorPool.waitPendingZero
  rw [waitPendingAux_map_key]

theorem waitPendingZero_spec (p : ActorPool) (out : RequestConfig → Bool)
    (hwf : p.WF) (hlen : 0 < p.workers.length) :
    (p.waitPendingZero out).pendingSubmits = [] ∧
    (p.waitPendingZero out).WF ∧
    (p.waitPendingZero out).sumBuffers + (p.waitPendingZero out).undoneCount
      = p.sumBuffers + p.undoneCount + p.pendingSubmits.length := by
  unfold ActorPool.waitPendingZero
  have hwf0 : ({ p with pendingSubmits := ([] : List RequestConfig) } : ActorPool).WF := hwf
  have hlen0 : 0 < ({ p with pendingSubmits := ([] : List RequestConfig) } : ActorPool).workers.length := hlen
  obtain ⟨h1, h2, h3⟩ := waitPendingAux_spec out p.pendingSubmits _ hwf0 hlen0
  exact ⟨h1, h2, h3⟩

theorem free_pool_true_eq (r : RequestsLauncher) (out : RequestConfig → Bool) :
    (r.free_pool true out).llm_client_pool
      = (r.llm_client_pool.waitPendingZero out).blockingReapAll out := rfl

theorem free_pool_block_spec (r : RequestsLauncher) (out : RequestConfig → Bool)
    (hwf : r.llm_client_pool.WF) (hlen : 0 < r.llm_client_pool.workers.length) :
    (r.free_pool true out).llm_client_pool.pendingSubmits = [] ∧
    (r.free_pool true out).llm_client_pool.outstanding = [] ∧
    (r.free_pool true out).llm_client_pool.sumBuffers
      = r.llm_client_pool.sumBuffers + r.llm_client_pool.undoneCount
        + r.llm_client_pool.pendingSubmits.length := by
  obtain ⟨h1, h2, h3⟩ := waitPendingZero_spec r.llm_client_pool out hwf hlen
  rw [free_pool_true_eq]
  refine ⟨?_, blockingReapAll_outstanding _ out, ?_⟩
  · rw [blockingReapAll_pendingSubmits]; exact h1
  · rw [blockingReapAll_sumBuffers _ out h2]
    omega

theorem free_pool_map_key (r : RequestsLauncher) (b : Bool) (out : RequestConfig → Bool) :
    (r.free_pool b out).llm_client_pool.workers.map Worker.key
      = r.llm_client_pool.workers.map Worker.key := by
  cases b with
  | false => rfl
  | true =>
    rw [free_pool_true_eq, blockingReapAll_map_key, waitPendingZero_map_key]

theorem has_free_of_no_outstanding (p : ActorPool) (hout : p.outstanding = [])
    (hlen : 0 < p.workers.length) : p.has_free = true := by
  unfold ActorPool.has_free
  rw [List.any_eq_true]
  exact ⟨0, by simpa using hlen, by simp [ActorPool.isIdle, hout]⟩

theorem get_results_foldl (ws : List Worker) :
    ∀ (acc1 : List Result) (acc2 : List Worker),
      ws.foldl (fun (acc : List Result × List Worker) (w : Worker) =>
          (acc.1 ++ (Worker.get_results w).1, acc.2 ++ [(Worker.get_results w).2])) (acc1, acc2)
        = (acc1 ++ concatBuffers ws, acc2 ++ ws.map (fun w => { w with resultBuffer := [] })) := by
  induction ws with
  | nil => intro acc1 acc2; simp [concatBuffers]
  | cons w ws ih =>
    intro acc1 acc2
    rw [List.foldl_cons, ih]
    simp [concatBuffers, Worker.get_results, List.append_assoc]

theorem get_results_eq (r : RequestsLauncher) :
    r.get_results = (concatBuffers r.llm_client_pool.workers,
      { llm_client_pool := { r.llm_client_pool with
          workers := r.llm_client_pool.workers.map (fun w => { w with resultBuffer := [] }) } }) := by
  unfold RequestsLauncher.get_results
  simp only [get_results_foldl]
  simp

theorem concatBuffers_cleared (ws : List Worker) :
    concatBuffers (ws.map (fun w => { w with resultBuffer := [] })) = [] := by
  induction ws with
  | nil => rfl
  | cons w ws ih => simp [concatBuffers, ih]

theorem complete_tasks_eq (r : RequestsLauncher) (out : RequestConfig → Bool) :
    (r.complete_tasks out).llm_client_pool
      = { (r.free_pool true out).llm_client_pool with
          workers := (r.free_pool true out).llm_client_pool.workers.map Worker.complete_tasks } := rfl

/-- C1: for every pool state, a non-blocking drain (`free_pool` with
`block = false`) reaps exactly the already-completed outstanding futures,
leaving the Workers and the pending queue untouched (it waits for nothing);
in particular, when no submitted request has completed yet it is a no-op
that changes no state. -/
theorem free_pool_nonblocking_reaps_exactly_completed (r : RequestsLauncher)
    (out : RequestConfig → Bool) :
    (r.free_pool false out).llm_client_pool.outstanding
      = r.llm_client_pool.outstanding.filter (fun f => !f.done) ∧
    (r.free_pool false out).llm_client_pool.workers = r.llm_client_pool.workers ∧
    (r.free_pool false out).llm_client_pool.pendingSubmits = r.llm_client_pool.pendingSubmits ∧
    ((∀ f ∈ r.llm_client_pool.outstanding, f.done = false) → r.free_pool false out = r) := by
  refine ⟨rfl, rfl, rfl, ?_⟩
  intro h
  have hf : r.llm_client_pool.outstanding.filter (fun f => !f.done)
      = r.llm_client_pool.outstanding :=
    List.filter_eq_self.mpr (fun f hfm => by simp [h f hfm])
  show RequestsLauncher.mk r.llm_client_pool.reapReady = r
  rcases r with ⟨⟨ws, pend, outs⟩⟩
  simp only [ActorPool.reapReady]
  simp only at hf
  simp [hf]

/-- Witness for C1: two Workers, one submission dispatched and not yet
completed — a non-blocking drain is a no-op. -/
theorem free_pool_nonblocking_reaps_exactly_completed_witness :
    (∀ f ∈ ((RequestsLauncher.init 2 1).launch_requests 5).llm_client_pool.outstanding,
        f.done = false) ∧
    ((RequestsLauncher.init 2 1).launch_requests 5).free_pool false (fun _ => true)
      = (RequestsLauncher.init 2 1).launch_requests 5 :=
  ⟨by decide,
    (free_pool_nonblocking_reaps_exactly_completed
      ((RequestsLauncher.init 2 1).launch_requests 5) (fun _ => true)).2.2.2 (by decide)⟩

/-- C2: for every well-formed pool state with at least one Worker, the
blocking drain (`free_pool` with `block = true`) first waits until no pending
submission remains and then reaps every outstanding future; on return the
pending queue and the outstanding set are empty and every submission ever
made has been dispatched and completed — the buffered results grew by
exactly one result per formerly in-progress future and per formerly pending
submission, for every choice of request outcomes `out`. -/
theorem free_pool_blocking_drains_everything (r : RequestsLauncher)
    (out : RequestConfig → Bool) (hwf : r.llm_client_pool.WF)
    (hlen : 0 < r.llm_client_pool.workers.length) :
    (r.free_pool true out).llm_client_pool.pendingSubmits = [] ∧
    (r.free_pool true out).llm_client_pool.outstanding = [] ∧
    (r.free_pool true out).llm_client_pool.sumBuffers
      = r.llm_client_pool.sumBuffers + r.llm_client_pool.undoneCount
        + r.llm_client_pool.pendingSubmits.length :=
  free_pool_block_spec r out hwf hlen

/-- Witness for C2: one Worker, one in-flight dispatch and one queued
submission; the blocking drain empties both and buffers both results. -/
theorem free_pool_blocking_drains_everything_witness :
    (((RequestsLauncher.init 1 1).launch_requests 5).launch_requests 6).llm_client_pool.WF ∧
    0 < (((RequestsLauncher.init 1 1).launch_requests 5).launch_requests 6).llm_client_pool.workers.length ∧
    ((((RequestsLauncher.init 1 1).launch_requests 5).launch_requests 6).free_pool true
        (fun _ => true)).llm_client_pool.pendingSubmits = [] ∧
    ((((RequestsLauncher.init 1 1).launch_requests 5).launch_requests 6).free_pool true
        (fun _ => true)).llm_client_pool.outstanding = [] ∧
    ((((RequestsLauncher.init 1 1).launch_requests 5).launch_requests 6).free_pool true
        (fun _ => true)).llm_client_pool.sumBuffers
      = (((RequestsLauncher.init 1 1).launch_requests 5).launch_requests 6).llm_client_pool.sumBuffers
        + (((RequestsLauncher.init 1 1).launch_requests 5).launch_requests 6).llm_client_pool.undoneCount
        + (((RequestsLauncher.init 1 1).launch_requests 5).launch_requests 6).llm_client_pool.pendingSubmits.length := by
  refine ⟨by decide, by decide, ?_⟩
  exact free_pool_blocking_drains_everything
    (((RequestsLauncher.init 1 1).launch_requests 5).launch_requests 6) (fun _ => true)
    (by decide) (by decide)

/-- C3: `complete_tasks` performs the blocking drain first and only then
calls `complete_tasks` on every Worker, in actor-list order; on return the
pool is fully quiescent — no pending submission, no outstanding future, every
Worker's task loop stopped — for every choice of request outcomes `out`,
including outcomes that mark submissions as failed. -/
theorem complete_tasks_blocking_drain_then_worker_stop (r : RequestsLauncher)
    (out : RequestConfig → Bool) (hwf : r.llm_client_pool.WF)
    (hlen : 0 < r.llm_client_pool.workers.length) :
    (r.complete_tasks out).llm_client_pool.workers
      = (r.free_pool true out).llm_client_pool.workers.map Worker.complete_tasks ∧
    (r.complete_tasks out).llm_client_pool.pendingSubmits = [] ∧
    (r.complete_tasks out).llm_client_pool.outstanding = [] ∧
    ∀ w ∈ (r.complete_tasks out).actors, w.running = false := by
  obtain ⟨h1, h2, _⟩ := free_pool_block_spec r out hwf hlen
  refine ⟨rfl, h1, h2, ?_⟩
  intro w hw
  have hw2 : w ∈ (r.free_pool true out).llm_client_pool.workers.map Worker.complete_tasks := hw
  rcases List.mem_map.mp hw2 with ⟨w2, _, hww⟩
  rw [← hww]
  rfl

/-- Witness for C3: one Worker, one in-flight dispatch and one queued
submission, with every outcome a failure — `complete_tasks` still reaches
quiescence. -/
theorem complete_tasks_blocking_drain_then_worker_stop_witness :
    (((RequestsLauncher.init 1 1).launch_requests 5).launch_requests 6).llm_client_pool.WF ∧
    0 < (((RequestsLauncher.init 1 1).launch_requests 5).launch_requests 6).llm_client_pool.workers.length ∧
    ((((RequestsLauncher.init 1 1).launch_requests 5).launch_requests 6).complete_tasks
        (fun _ => false)).llm_client_pool.workers
      = ((((RequestsLauncher.init 1 1).launch_requests 5).launch_requests 6).free_pool true
          (fun _ => false)).llm_client_pool.workers.map Worker.complete_tasks ∧
    ((((RequestsLauncher.init 1 1).launch_requests 5).launch_requests 6).complete_tasks
        (fun _ => false)).llm_client_pool.pendingSubmits = [] ∧
    ((((RequestsLauncher.init 1 1).launch_requests 5).launch_requests 6).complete_tasks
        (fun _ => false)).llm_client_pool.outstanding = [] ∧
    ∀ w ∈ ((((RequestsLauncher.init 1 1).launch_requests 5).launch_requests 6).complete_tasks
        (fun _ => false)).actors, w.running = false := by
  refine ⟨by decide, by decide, ?_⟩
  exact complete_tasks_blocking_drain_then_worker_stop
    (((RequestsLauncher.init 1 1).launch_requests 5).launch_requests 6) (fun _ => false)
    (by decide) (by decide)

/-- C4: after `complete_tasks` returns, the pool reports a free Worker
(`is_free` is true — every Worker is free since no outstanding future
remains), and a second `get_results` call right after a first one returns
the empty sequence: the first call drains all buffered results. -/
theorem complete_tasks_quiescence (r : RequestsLauncher) (out : RequestConfig → Bool)
    (hne : r.actors ≠ []) :
    (r.complete_tasks out).is_free = true ∧
    ((r.complete_tasks out).get_results.2).get_results.1 = [] := by
  constructor
  · apply has_free_of_no_outstanding
    · rfl
    · have h1 : (r.complete_tasks out).llm_client_pool.workers.length
          = r.llm_client_pool.workers.length := by
        rw [complete_tasks_eq]
        simp only [List.length_map]
        have h2 := congrArg List.length (free_pool_map_key r true out)
        simpa using h2
      rw [h1]
      exact List.length_pos.mpr hne
  · rw [get_results_eq, get_results_eq]
    simp [concatBuffers_cleared]

/-- Witness for C4: a one-Worker Launcher with one completed submission. -/
theorem complete_tasks_quiescence_witness :
    (RequestsLauncher.init 1 1).actors ≠ [] ∧
    (((RequestsLauncher.init 1 1).launch_requests 5).complete_tasks (fun _ => true)).is_free = true ∧
    ((((RequestsLauncher.init 1 1).launch_requests 5).complete_tasks
        (fun _ => true)).get_results.2).get_results.1 = [] := by
  refine ⟨by decide, ?_⟩
  exact complete_tasks_quiescence ((RequestsLauncher.init 1 1).launch_requests 5)
    (fun _ => true) (by decide)

/-- C5: `get_results` iterates the Workers in the fixed actor-list order
(construction order) and returns the concatenation of the per-Worker result
buffers, each kept in its per-Worker arrival order; afterwards every buffer
is cleared.  The cross-Worker order is the Worker iteration order, not a
global completion order. -/
theorem get_results_worker_order_concat (r : RequestsLauncher) :
    r.get_results.1 = concatBuffers r.actors ∧
    r.get_results.2.actors = r.actors.map (fun w => { w with resultBuffer := [] }) := by
  rw [get_results_eq]
  exact ⟨rfl, rfl⟩

/-- C6: `is_free` returns exactly the pool's `has_free` value, and that value
is true iff at least one Worker has no outstanding dispatch tracked by the
pool. -/
theorem is_free_forwards_has_free (r : RequestsLauncher) :
    r.is_free = r.llm_client_pool.has_free ∧
    (r.is_free = true ↔ ∃ i, i < r.llm_client_pool.workers.length ∧
      ∀ f ∈ r.llm_client_pool.outstanding, f.workerIdx ≠ i) := by
  refine ⟨rfl, ?_⟩
  show r.llm_client_pool.has_free = true ↔ _
  unfold ActorPool.has_free
  rw [List.any_eq_true]
  constructor
  · rintro ⟨i, hmem, hidle⟩
    exact ⟨i, by simpa using hmem, (isIdle_iff _ i).mp hidle⟩
  · rintro ⟨i, hlt, hni⟩
    exact ⟨i, by simpa using hlt, (isIdle_iff _ i).mpr hni⟩

/-- Witness for C6: a fresh two-Worker Launcher has a free Worker. -/
theorem is_free_forwards_has_free_witness :
    RequestsLauncher.is_free (RequestsLauncher.init 2 1) = true :=
  (is_free_forwards_has_free (RequestsLauncher.init 2 1)).2.mpr
    ⟨0, by decide, by decide⟩

/-- C7: `launch_requests` forwards the config to the pool's `submit`: when a
free Worker exists the config is dispatched to an idle Worker (the pending
queue unchanged); otherwise it is queued as a pending submission; in both
cases the submission is accounted for — the total of pending and outstanding
entries grows by exactly one, so no submission is dropped. -/
theorem launch_requests_forwards_submit (r : RequestsLauncher) (cfg : RequestConfig) :
    ((r.launch_requests cfg).llm_client_pool.pendingSubmits.length
        + (r.launch_requests cfg).llm_client_pool.outstanding.length
      = r.llm_client_pool.pendingSubmits.length + r.llm_client_pool.outstanding.length + 1) ∧
    (r.is_free = true →
      (r.launch_requests cfg).llm_client_pool.pendingSubmits = r.llm_client_pool.pendingSubmits ∧
      ∃ i, i < r.llm_client_pool.workers.length ∧
        (∀ f ∈ r.llm_client_pool.outstanding, f.workerIdx ≠ i) ∧
        (r.launch_requests cfg).llm_client_pool.outstanding
          = r.llm_client_pool.outstanding
              ++ [{ workerIdx := i, cfg := cfg, done := false, ok := false }]) ∧
    (r.is_free = false →
      (r.launch_requests cfg).llm_client_pool.outstanding = r.llm_client_pool.outstanding ∧
      (r.launch_requests cfg).llm_client_pool.pendingSubmits
        = r.llm_client_pool.pendingSubmits ++ [cfg]) := by
  have hfree : r.is_free = r.llm_client_pool.has_free := rfl
  unfold RequestsLauncher.launch_requests ActorPool.submit
  cases h : r.llm_client_pool.firstIdle with
  | some i =>
    have htrue : r.is_free = true := by
      rw [hfree, has_free_iff_firstIdle, h]
      rfl
    refine ⟨?_, ?_, ?_⟩
    · simp [ActorPool.dispatchTo]
      omega
    · intro _
      refine ⟨rfl, i, firstIdle_lt _ i h, (isIdle_iff _ i).mp (firstIdle_isIdle _ i h), rfl⟩
    · intro hfalse
      rw [htrue] at hfalse
      exact absurd hfalse (by simp)
  | none =>
    have hfalse : r.is_free = false := by
      rw [hfree]
      cases hb : r.llm_client_pool.has_free with
      | false => rfl
      | true =>
        have := (has_free_iff_firstIdle r.llm_client_pool).mp hb
        rw [h] at this
        simp at this
    refine ⟨?_, ?_, ?_⟩
    · simp
      omega
    · intro htrue
      rw [hfalse] at htrue
      exact absurd htrue (by simp)
    · intro _
      exact ⟨rfl, rfl⟩

/-- Witness for C7: a fresh one-Worker Launcher is free and the submission is
dispatched without touching the pending queue. -/
theorem launch_requests_forwards_submit_witness :
    RequestsLauncher.is_free (RequestsLauncher.init 1 1) = true ∧
    ((RequestsLauncher.init 1 1).launch_requests 5).llm_client_pool.pendingSubmits
      = (RequestsLauncher.init 1 1).llm_client_pool.pendingSubmits :=
  ⟨by decide,
    ((launch_requests_forwards_submit (RequestsLauncher.init 1 1) 5).2.1 (by decide)).1⟩

/-- C8: constructing the Launcher with a desired Worker count `n` and a
per-Worker concurrency ceiling `k` creates exactly `n` Workers, one per
constructed API client, each configured with ceiling `k`, and registers all
of them in the pool, which starts with no pending submission and no
outstanding future. -/
theorem init_constructs_worker_set (n k : Nat) :
    (RequestsLauncher.init n k).actors.length = n ∧
    (construct_clients n).length = n ∧
    (RequestsLauncher.init n k).actors.map Worker.client = construct_clients n ∧
    (RequestsLauncher.init n k).actors.map Worker.id = List.range n ∧
    (RequestsLauncher.init n k).actors.map Worker.concurrencyLimit = List.replicate n k ∧
    (RequestsLauncher.init n k).llm_client_pool.workers = (RequestsLauncher.init n k).actors ∧
    (RequestsLauncher.init n k).llm_client_pool.pendingSubmits = [] ∧
    (RequestsLauncher.init n k).llm_client_pool.outstanding = [] := by
  refine ⟨?_, ?_, ?_, ?_, ?_, rfl, rfl, rfl⟩
  · simp [RequestsLauncher.init, RequestsLauncher.actors, construct_clients]
  · simp [construct_clients]
  · simp [RequestsLauncher.init, RequestsLauncher.actors, construct_clients,
      List.map_map, Function.comp_def]
  · simp [RequestsLauncher.init, RequestsLauncher.actors, construct_clients,
      List.map_map, Function.comp_def]
  · simp [RequestsLauncher.init, RequestsLauncher.actors, construct_clients,
      List.map_map, Function.comp_def, List.map_const']

/-- C9: the Worker set is fixed: `start`, `launch_requests`, `free_pool` in
either mode, `complete_tasks` and `get_results` all leave the actor list
unchanged as a list of Workers — same length, same order, each Worker keeping
its identity (id, client handle, concurrency ceiling); no Worker is added,
removed, replaced or reordered.  (`is_free` takes no state at all: it returns
a Bool and leaves the Launcher untouched by construction.) -/
theorem operations_preserve_worker_set (r : RequestsLauncher) (cfg : RequestConfig)
    (b : Bool) (out : RequestConfig → Bool) :
    actorKeys r.start = actorKeys r ∧
    actorKeys (r.launch_requests cfg) = actorKeys r ∧
    actorKeys (r.free_pool b out) = actorKeys r ∧
    actorKeys (r.complete_tasks out) = actorKeys r ∧
    actorKeys r.get_results.2 = actorKeys r := by
  have hstop : Worker.key ∘ Worker.complete_tasks = Worker.key := funext fun w => rfl
  have hclear : Worker.key ∘ (fun w : Worker => { w with resultBuffer := [] }) = Worker.key :=
    funext fun w => rfl
  refine ⟨?_, ?_, ?_, ?_, ?_⟩
  · unfold actorKeys RequestsLauncher.actors RequestsLauncher.start
    simp [List.map_map, Function.comp, Worker.start_tasks, Worker.key]
  · unfold actorKeys RequestsLauncher.actors RequestsLauncher.launch_requests ActorPool.submit
    cases h : r.llm_client_pool.firstIdle <;> simp [h, ActorPool.dispatchTo]
  · unfold actorKeys RequestsLauncher.actors
    exact free_pool_map_key r b out
  · unfold actorKeys RequestsLauncher.actors
    rw [complete_tasks_eq]
    simp only [List.map_map, hstop]
    exact free_pool_map_key r true out
  · unfold actorKeys RequestsLauncher.actors
    rw [get_results_eq]
    simp only [List.map_map, hclear]

/-- C10 counterexample: a pool holding one dispatched, not-yet-completed
future still has an unreaped outstanding future after a non-blocking
`free_pool`, so the claim "after `free_pool` in either mode `has_next` is
false" fails in non-blocking mode. -/
theorem free_pool_nonblock_has_next_cex :
    ((((RequestsLauncher.init 1 1).launch_requests 5).free_pool false
        (fun _ => true)).llm_client_pool.has_next) = true := by decide

/-- C10 amended: when `free_pool` with `block = true` returns, the pool holds
no unreaped outstanding future (`has_next` is false); `free_pool` with
`block = false` reaps only the already-completed futures, so exactly the
futures still in progress remain outstanding. -/
theorem free_pool_outstanding_postcondition (r : RequestsLauncher)
    (out : RequestConfig → Bool) :
    (r.free_pool true out).llm_client_pool.has_next = false ∧
    (r.free_pool false out).llm_client_pool.outstanding
      = r.llm_client_pool.outstanding.filter (fun f => !f.done) :=
  ⟨rfl, rfl⟩
